import Mathlib

/-!
Shallow embedding of the dose-reminder scheduler core (`server.js`).

Modelling conventions:
* Instants are integers: minutes since an arbitrary epoch, UTC.  The
  scheduler truncates `now` to minute granularity before any comparison
  (`startOf('minute')`), and minute boundaries agree across all IANA
  zones (every real zone offset is a whole number of minutes), so minute
  resolution loses nothing the code can observe.
* A luxon `DateTime` is a pair of the UTC instant and the zone's UTC
  offset in minutes; an *invalid* `DateTime` (unknown zone, out-of-range
  `set`) is `none`.  Comparisons (`>=`, `<=`) involving an invalid
  `DateTime` are `false` in JS (`NaN` comparisons), and
  `toFormat` of an invalid `DateTime` is the fixed string
  "Invalid DateTime"; both behaviours are reproduced below.
* The IANA zone database that luxon consults is external to the
  repository; it is modelled as a parameter `db : String → Option Int`
  mapping a zone name to its fixed UTC offset in minutes (DST is outside
  the scope of every claim treated here).
* Calendar dates (`startDate`, an ISO date string in the source) are
  modelled as the integer day number of that calendar date; `fromISO`
  of a date in zone `z` is local midnight of that day in `z`.
-/

/-- A valid luxon DateTime: UTC instant (minutes) plus zone offset (minutes). -/
structure ZDT where
  utc : Int
  off : Int
deriving DecidableEq, Repr

/-- A luxon DateTime result: `none` is an invalid DateTime. -/
abbrev LDT := Option ZDT

/-- External IANA zone database: zone name to UTC offset in minutes. -/
abbrev ZoneDb := String → Option Int

/-- The dedup key recorded per send: `now.toISO()` is determined exactly by
the pair (UTC instant, zone offset), so the key is modelled as that pair. -/
abbrev Key := Int × Int

/-- Local wall-clock minutes of a valid DateTime. -/
def localOf (d : ZDT) : Int := d.utc + d.off

/-- Local minutes of the start of the local calendar day (floor to 1440). -/
def dayStartLocal (d : ZDT) : Int := (localOf d / 1440) * 1440

/-- luxon `startOf('day')`: same zone, local midnight of the current local day. -/
def startOfDay (d : ZDT) : ZDT := ⟨dayStartLocal d - d.off, d.off⟩

/-- luxon `dt.set({hour, minute, second: 0, millisecond: 0})` where the hour and
minute come from `parseInt` (`none` models `NaN`); invalid if out of range. -/
def setHM (d : ZDT) (h? m? : Option Nat) : LDT :=
  match h?, m? with
  | some h, some m =>
      if h ≤ 23 ∧ m ≤ 59 then some ⟨dayStartLocal d + h * 60 + m - d.off, d.off⟩
      else none
  | _, _ => none

/-- luxon `dt.plus({hours})`, in minutes; invalid stays invalid. -/
def plusMin (dt : LDT) (k : Int) : LDT := dt.map fun d => ⟨d.utc + k, d.off⟩

/-- Model of `dt.toFormat("HH:mm")`: the wall-clock time of day, as minutes past local
midnight; `none` stands for the string "Invalid DateTime". -/
def formatHM (dt : LDT) : Option Int := dt.map fun d => localOf d % 1440

/-- Equality of the `toFormat("HH:mm")` strings of two DateTimes (two invalid
DateTimes both format as "Invalid DateTime" and hence compare equal). -/
def formatEq (a b : LDT) : Bool := formatHM a == formatHM b

/-- Model of `DateTime.now().setZone(tz)`: valid iff the zone is known; since the
offset is whole minutes, minute truncation commutes with the zone change. -/
def setZoneNow (db : ZoneDb) (tz : String) (utcNow : Int) : LDT :=
  (db tz).map fun o => ⟨utcNow, o⟩

/-- A schedule record as stored in `schedules.json`.  `startDate` is the day
number of the ISO calendar date; `timezone = none` models an absent field. -/
structure Schedule where
  id : String
  medicineName : String
  dosage : String
  time : String
  frequency : String
  duration : Int
  email : String
  startDate : Int
  timezone : Option String
deriving DecidableEq, Repr

/-- JS `s.split(':')` destructured into its first two components: the text
before the first colon, and (when a colon exists) the text between the first
and second colon.  A missing second component models `undefined`. -/
def breakColon : List Char → List Char × Option (List Char)
  | [] => ([], none)
  | c :: r =>
      if c = ':' then ([], some (r.takeWhile fun c' => c' ≠ ':'))
      else
        let p := breakColon r
        (c :: p.1, p.2)

/-- JS `parseInt(s, 10)` on the inputs the scheduler meets: the leading run
of decimal digits, `none` for `NaN` (no leading digit, or `undefined`). -/
def parseIntJs (cs : List Char) : Option Nat :=
  let ds := cs.takeWhile Char.isDigit
  if ds.isEmpty then none
  else some (ds.foldl (fun acc c => 10 * acc + (c.toNat - 48)) 0)

/-- The hour/minute extraction of `checkDueSchedules`:
`const [hStr, mStr] = t.split(':')`, then `parseInt` of each
(`parseInt(undefined)` is `NaN`, modelled by `none`). -/
def parseHM (t : String) : Option Nat × Option Nat :=
  let p := breakColon t.data
  (parseIntJs p.1, p.2.bind fun cs => parseIntJs cs)

/-- luxon `DateTime.fromISO(dateString, { zone }).startOf('day')`: local
midnight of calendar day `d` in the given zone; invalid for an unknown zone. -/
def fromISODay (off? : Option Int) (d : Int) : LDT :=
  off?.map fun o => ⟨d * 1440 - o, o⟩

/-- The `isWithinDuration(schedule, now)` utility of `server.js`:
`start = fromISO(startDate, { zone: schedule.timezone }).startOf('day')`,
`end = start.plus({ days: duration - 1 }).endOf('day')`, and
`now >= start.startOf('day') && now <= end`.  An absent `timezone` field
makes `fromISO` use the process-local zone (`localOff`); any comparison with
an invalid DateTime is false.  `endOf('day')` is 23:59:59.999, which at
minute-truncated `now` is equivalent to local minute 1439 of that day. -/
def isWithinDuration (db : ZoneDb) (localOff : Int) (s : Schedule) (now : LDT) : Bool :=
  match now with
  | none => false
  | some n =>
      match (match s.timezone with | some z => db z | none => some localOff) with
      | none => false
      | some o =>
          decide (s.startDate * 1440 - o ≤ n.utc ∧
                  n.utc ≤ s.startDate * 1440 - o + (s.duration - 1) * 1440 + 1439)

/-- The day-gated branches (`everyOtherDay`, `weekly`): recompute
`start = fromISO(startDate, { zone: tz }).startOf('day')`, take
`daysDiff = Math.floor(now.startOf('day').diff(start, 'days').days)` and keep
the base candidate iff `daysDiff >= 0 && daysDiff % k === 0`.  An invalid
`start` makes `daysDiff` `NaN`, which fails the `>= 0` test. -/
def gatedDay (db : ZoneDb) (tz : String) (s : Schedule) (n : ZDT) (base : LDT)
    (k : Int) : List LDT :=
  match db tz with
  | none => []
  | some o =>
      let dd := ((startOfDay n).utc - (s.startDate * 1440 - o)) / 1440
      if 0 ≤ dd ∧ dd % k = 0 then [base] else []

/-- The candidate construction of `checkDueSchedules` (the `switch` on
`schedule.frequency`, lines 101–130 of `server.js`): `baseToday` is `now`
with hour/minute set from `(schedule.time || '00:00')`, and the `switch` is
a chain of strict string comparisons with a fall-open `default`. -/
def candidatesOf (db : ZoneDb) (tz : String) (s : Schedule) (n : ZDT) : List LDT :=
  let hm := parseHM (if s.time = "" then "00:00" else s.time)
  let base := setHM n hm.1 hm.2
  if s.frequency = "onceDaily" then [base]
  else if s.frequency = "twiceDaily" then [base, plusMin base 720]
  else if s.frequency = "every8h" then [base, plusMin base 480, plusMin base 960]
  else if s.frequency = "everyOtherDay" then gatedDay db tz s n base 2
  else if s.frequency = "weekly" then gatedDay db tz s n base 7
  else [base]

/-- Model of `now.toISO()` of the (valid) minute-truncated `now`: determined exactly
by the UTC instant and the zone offset. -/
def minuteKey (n : ZDT) : Key := (n.utc, n.off)

/-- The persisted `lastSent` map (`lastSent.json`): schedule id to the
minute key of the last successful send. -/
abbrev LastSent := List (String × Key)

/-- JS object read `lastSent[id]` (`undefined` when absent). -/
def lsLookup : LastSent → String → Option Key
  | [], _ => none
  | (i, k) :: r, j => if i = j then some k else lsLookup r j

/-- JS object write `lastSent[id] = key`. -/
def lsSet : LastSent → String → Key → LastSent
  | [], i, k => [(i, k)]
  | (i0, k0) :: r, i, k =>
      if i0 = i then (i0, k) :: r else (i0, k0) :: lsSet r i k

/-- One `sendMail` invocation, recorded as (schedule id, minute key). -/
abbrev Attempt := String × Key

/-- The per-candidate loop of `checkDueSchedules` (lines 132–158): skip the
candidate unless `dt.toFormat("HH:mm")` equals `now.toFormat("HH:mm")`; skip
when `lastSent[id]` already equals the minute key; otherwise invoke
`sendMail` (`sendOk` is the external transporter's verdict) and only on
success assign `lastSent[id] = minuteKey` and persist. -/
def procCands (sendOk : String → Key → Bool) (id : String) (n : ZDT) :
    List LDT → LastSent → LastSent × List Attempt
  | [], ls => (ls, [])
  | dt :: rest, ls =>
      if formatEq dt (some n) then
        let key := minuteKey n
        if lsLookup ls id == some key then procCands sendOk id n rest ls
        else if sendOk id key then
          let p := procCands sendOk id n rest (lsSet ls id key)
          (p.1, (id, key) :: p.2)
        else
          let p := procCands sendOk id n rest ls
          (p.1, (id, key) :: p.2)
      else procCands sendOk id n rest ls

/-- Model of `schedule.timezone || process.env.SERVER_TIMEZONE || 'UTC'`. -/
def tzOf (serverTz : Option String) (s : Schedule) : String :=
  s.timezone.getD (serverTz.getD "UTC")

/-- The body of `schedules.forEach` in `checkDueSchedules`: resolve `now` in
the schedule's zone (minute-truncated), return early unless
`isWithinDuration`, then build the candidates and run the send loop.  An
invalid `now` (unknown zone) fails `isWithinDuration`, so the schedule is
skipped. -/
def processSchedule (db : ZoneDb) (serverTz : Option String) (localOff : Int)
    (sendOk : String → Key → Bool) (utcNow : Int) (ls : LastSent)
    (s : Schedule) : LastSent × List Attempt :=
  let tz := tzOf serverTz s
  match setZoneNow db tz utcNow with
  | none => (ls, [])
  | some n =>
      if isWithinDuration db localOff s (some n) then
        procCands sendOk s.id n (candidatesOf db tz s n) ls
      else (ls, [])

/-- The candidate instants a tick produces for one schedule: none when the
zone is unknown or `now` is outside the duration window (the `forEach` body
returns before the `switch`), otherwise the `switch` result. -/
def tickCandidates (db : ZoneDb) (serverTz : Option String) (localOff : Int)
    (utcNow : Int) (s : Schedule) : List LDT :=
  let tz := tzOf serverTz s
  match setZoneNow db tz utcNow with
  | none => []
  | some n =>
      if isWithinDuration db localOff s (some n) then candidatesOf db tz s n
      else []

/-- The whole `checkDueSchedules` tick: fold the per-schedule body over the
registry, threading the `lastSent` map and collecting every `sendMail` call. -/
def checkDueSchedules (db : ZoneDb) (serverTz : Option String) (localOff : Int)
    (sendOk : String → Key → Bool) (utcNow : Int) :
    List Schedule → LastSent → LastSent × List Attempt
  | [], ls => (ls, [])
  | s :: rest, ls =>
      let p := processSchedule db serverTz localOff sendOk utcNow ls s
      let r := checkDueSchedules db serverTz localOff sendOk utcNow rest p.1
      (r.1, p.2 ++ r.2)

/-- The server's mutable state: the schedule registry (`schedules.json`) and
the dedup map (`lastSent.json`). -/
structure ServerState where
  schedules : List Schedule
  lastSent : LastSent
deriving DecidableEq, Repr

/-- The DELETE `/schedules/:id` handler: filter the registry by id and
persist it; `lastSent` is not touched. -/
def deleteSchedule (id : String) (st : ServerState) : ServerState :=
  { st with schedules := st.schedules.filter fun s => s.id ≠ id }

/-- The POST `/addSchedule` handler's effect on the state: push the new
schedule record and persist the registry; `lastSent` is not touched. -/
def addSchedule (s : Schedule) (st : ServerState) : ServerState :=
  { st with schedules := st.schedules ++ [s] }

/-- A whole tick acting on the server state. -/
def tickState (db : ZoneDb) (serverTz : Option String) (localOff : Int)
    (sendOk : String → Key → Bool) (utcNow : Int) (st : ServerState) :
    ServerState × List Attempt :=
  let p := checkDueSchedules db serverTz localOff sendOk utcNow st.schedules st.lastSent
  ({ st with lastSent := p.1 }, p.2)

/-- Does some candidate pass the `HH:mm` due test against `now`? -/
def hasDue (n : ZDT) (cands : List LDT) : Bool :=
  cands.any fun dt => formatEq dt (some n)

/-- The schedule is due this tick: zone known, `now` inside the duration
window, some candidate matches the current `HH:mm`, and the minute key is
not yet the schedule's `lastSent` entry. -/
def scheduleDue (db : ZoneDb) (serverTz : Option String) (localOff : Int)
    (utcNow : Int) (ls : LastSent) (s : Schedule) : Bool :=
  let tz := tzOf serverTz s
  match setZoneNow db tz utcNow with
  | none => false
  | some n =>
      isWithinDuration db localOff s (some n) &&
      hasDue n (candidatesOf db tz s n) &&
      !(lsLookup ls s.id == some (minuteKey n))

/-- Does the time string parse to an in-range hour/minute pair (the condition
under which `now.set` yields a valid instant)? -/
def timeParseOk (t : String) : Bool :=
  match parseHM t with
  | (some h, some m) => decide (h ≤ 23 ∧ m ≤ 59)
  | _ => false

/-! Concrete fixtures for witnesses and counterexamples.  Day number 0 of the
date model stands for 2024-01-01 (so day 2 is 2024-01-03, day 7 is
2024-01-08); all instants are minutes since 2024-01-01T00:00Z. -/

/-- A concrete zone database fragment: UTC and a +05:30 zone. -/
def db0 : ZoneDb := fun z =>
  if z = "UTC" then some 0 else if z = "Asia/Kolkata" then some 330 else none

/-- A transporter for which every `sendMail` succeeds. -/
def okAll : String → Key → Bool := fun _ _ => true

/-- A transporter for which every `sendMail` fails. -/
def okNone : String → Key → Bool := fun _ _ => false

/-- Once-daily 09:00 UTC schedule, active 7 days from 2024-01-01. -/
def sOnce : Schedule :=
  ⟨"s1", "MedA", "1 pill", "09:00", "onceDaily", 7, "a@b.c", 0, some "UTC"⟩

/-- Twice-daily 22:00 UTC schedule, active 30 days from 2024-01-01. -/
def sTw : Schedule :=
  ⟨"s2", "MedB", "", "22:00", "twiceDaily", 30, "a@b.c", 0, some "UTC"⟩

/-- Every-8-hours 22:00 UTC schedule, active exactly one day (2024-01-01). -/
def s4 : Schedule :=
  ⟨"s4", "MedC", "", "22:00", "every8h", 1, "a@b.c", 0, some "UTC"⟩

/-- Every-other-day 09:00 UTC schedule starting 2024-01-01. -/
def sE : Schedule :=
  ⟨"s5", "MedD", "", "09:00", "everyOtherDay", 30, "a@b.c", 0, some "UTC"⟩

/-- Once-daily 09:00 schedule in a +05:30 zone. -/
def sIN : Schedule :=
  ⟨"s6", "MedE", "", "09:00", "onceDaily", 100000, "a@b.c", 0, some "Asia/Kolkata"⟩

/-- Schedule whose timezone identifier is not in the zone database. -/
def sBadZone : Schedule := { sOnce with timezone := some "Mars/Olympus" }

/-- Schedule whose time string has an out-of-range hour. -/
def sBadTime : Schedule := { sOnce with id := "s7", time := "25:00" }

/-- The instant at local wall time `h:m` on `n`'s local calendar day, in
`n`'s zone: the occurrence at `schedule.time` "today".  This is what
`now.set({hour, minute, ...})` yields when `h` and `m` are in range. -/
def atTime (n : ZDT) (h m : Nat) : ZDT :=
  ⟨dayStartLocal n + h * 60 + m - n.off, n.off⟩

/-- The whole-calendar-day count from calendar day `sd` to `n`'s local day. -/
def dayCountFrom (n : ZDT) (sd : Int) : Int := localOf n / 1440 - sd


/-! Helper lemmas about the dedup map and the send loop. -/

theorem lsLookup_lsSet (ls : LastSent) (i j : String) (k : Key) :
    lsLookup (lsSet ls i k) j = if i = j then some k else lsLookup ls j := by
  induction ls with
  | nil => simp [lsSet, lsLookup]
  | cons p r ih =>
      by_cases h : p.1 = i
      · subst h
        by_cases hj : p.1 = j <;> simp [lsSet, lsLookup, hj]
      · by_cases hj : p.1 = j
        · subst hj
          have : ¬ i = p.1 := fun hc => h hc.symm
          simp [lsSet, lsLookup, h, this]
        · simp [lsSet, lsLookup, h, hj, ih]

theorem procCands_dedup (f : String → Key → Bool) (id : String) (n : ZDT)
    (cands : List LDT) (ls : LastSent)
    (h : lsLookup ls id = some (minuteKey n)) :
    procCands f id n cands ls = (ls, []) := by
  induction cands with
  | nil => rfl
  | cons dt rest ih =>
      by_cases hf : formatEq dt (some n)
      · simp [procCands, hf, h, ih]
      · simp [procCands, hf, ih]

theorem hasDue_of_all_none (n : ZDT) (cands : List LDT)
    (h : ∀ dt ∈ cands, dt = none) : hasDue n cands = false := by
  induction cands with
  | nil => rfl
  | cons dt rest ih =>
      have h1 : dt = none := h dt (List.mem_cons_self dt rest)
      have h2 : ∀ dt' ∈ rest, dt' = none := fun dt' hm => h dt' (List.mem_cons_of_mem _ hm)
      subst h1
      simp [hasDue, formatEq, formatHM] at ih ⊢
      exact ih h2

theorem procCands_noDue (f : String → Key → Bool) (id : String) (n : ZDT)
    (cands : List LDT) (ls : LastSent)
    (h : hasDue n cands = false) :
    procCands f id n cands ls = (ls, []) := by
  induction cands with
  | nil => rfl
  | cons dt rest ih =>
      simp [hasDue] at h
      have hr : hasDue n rest = false := by
        simp [hasDue]
        exact h.2
      simp [procCands, h.1, ih hr]

theorem procCands_due_ok (f : String → Key → Bool) (id : String) (n : ZDT)
    (cands : List LDT) (ls : LastSent)
    (hok : f id (minuteKey n) = true)
    (hd : lsLookup ls id ≠ some (minuteKey n))
    (hdue : hasDue n cands = true) :
    procCands f id n cands ls = (lsSet ls id (minuteKey n), [(id, minuteKey n)]) := by
  induction cands with
  | nil => simp [hasDue] at hdue
  | cons dt rest ih =>
      by_cases hf : formatEq dt (some n)
      · have hset : lsLookup (lsSet ls id (minuteKey n)) id = some (minuteKey n) := by
          simp [lsLookup_lsSet]
        simp [procCands, hf, hd, hok, procCands_dedup f id n rest _ hset]
      · simp [hasDue, hf] at hdue
        have hr : hasDue n rest = true := by
          simp [hasDue]
          exact hdue
        simp [procCands, hf, ih hr]

theorem procCands_fail (id : String) (n : ZDT) (cands : List LDT) (ls : LastSent) :
    (procCands okNone id n cands ls).1 = ls := by
  induction cands with
  | nil => rfl
  | cons dt rest ih =>
      by_cases hf : formatEq dt (some n)
      · by_cases hd : lsLookup ls id == some (minuteKey n)
        · simp [procCands, hf, hd, ih]
        · simp [procCands, hf, hd, okNone, ih]
      · simp [procCands, hf, ih]

theorem procCands_frame (f : String → Key → Bool) (id : String) (n : ZDT)
    (cands : List LDT) (ls : LastSent) (j : String) :
    lsLookup (procCands f id n cands ls).1 j = lsLookup ls j ∨
      (j = id ∧ lsLookup (procCands f id n cands ls).1 j = some (minuteKey n) ∧
       (id, minuteKey n) ∈ (procCands f id n cands ls).2 ∧
       f id (minuteKey n) = true) := by
  induction cands generalizing ls with
  | nil => left; rfl
  | cons dt rest ih =>
      by_cases hf : formatEq dt (some n)
      · by_cases hd : lsLookup ls id == some (minuteKey n)
        · simpa [procCands, hf, hd] using ih ls
        · by_cases hok : f id (minuteKey n)
          · rcases ih (lsSet ls id (minuteKey n)) with h | h
            · by_cases hij : j = id
              · subst hij
                right
                refine ⟨rfl, ?_, ?_, hok⟩
                · simp [procCands, hf, hd, hok, h, lsLookup_lsSet]
                · simp [procCands, hf, hd, hok]
              · left
                have hne : ¬ id = j := fun hc => hij hc.symm
                have hs : lsLookup (lsSet ls id (minuteKey n)) j = lsLookup ls j := by
                  rw [lsLookup_lsSet, if_neg hne]
                simp [procCands, hf, hd, hok, h, hs]
            · right
              refine ⟨h.1, ?_, ?_, hok⟩
              · simp [procCands, hf, hd, hok, h.2.1]
              · simp [procCands, hf, hd, hok]
          · rcases ih ls with h | h
            · left
              simp [procCands, hf, hd, hok, h]
            · exact absurd h.2.2.2 (by simp [hok])
      · simpa [procCands, hf] using ih ls

theorem processSchedule_frame (db : ZoneDb) (stz : Option String) (lo : Int)
    (f : String → Key → Bool) (u : Int) (ls : LastSent) (s : Schedule) (j : String) :
    lsLookup (processSchedule db stz lo f u ls s).1 j = lsLookup ls j ∨
      (∃ k, (j, k) ∈ (processSchedule db stz lo f u ls s).2 ∧ f j k = true ∧
            lsLookup (processSchedule db stz lo f u ls s).1 j = some k) := by
  rcases hz : setZoneNow db (tzOf stz s) u with _ | n
  · left
    simp [processSchedule, hz]
  · by_cases hw : isWithinDuration db lo s (some n)
    · have hps : processSchedule db stz lo f u ls s
          = procCands f s.id n (candidatesOf db (tzOf stz s) s n) ls := by
        simp [processSchedule, hz, hw]
      rw [hps]
      rcases procCands_frame f s.id n (candidatesOf db (tzOf stz s) s n) ls j with h | h
      · left; exact h
      · rcases h with ⟨hji, hlk, hmem, hok⟩
        subst hji
        right
        exact ⟨minuteKey n, hmem, hok, hlk⟩
    · left
      simp [processSchedule, hz, hw]

theorem checkDue_frame (db : ZoneDb) (stz : Option String) (lo : Int)
    (f : String → Key → Bool) (u : Int) (scheds : List Schedule) (ls : LastSent)
    (j : String) :
    lsLookup (checkDueSchedules db stz lo f u scheds ls).1 j = lsLookup ls j ∨
      (∃ k, (j, k) ∈ (checkDueSchedules db stz lo f u scheds ls).2 ∧ f j k = true) := by
  induction scheds generalizing ls with
  | nil => left; rfl
  | cons s rest ih =>
      rcases ih (processSchedule db stz lo f u ls s).1 with h | h
      · rcases processSchedule_frame db stz lo f u ls s j with h0 | h0
        · left
          simpa [checkDueSchedules, h0] using h
        · right
          rcases h0 with ⟨k, hk1, hk2, _⟩
          exact ⟨k, by simp [checkDueSchedules, hk1], hk2⟩
      · right
        rcases h with ⟨k, hk1, hk2⟩
        exact ⟨k, by simp [checkDueSchedules, hk1], hk2⟩

theorem procCands_keeps (f : String → Key → Bool) (id : String) (n : ZDT)
    (cands : List LDT) (ls : LastSent) (j : String)
    (h : (lsLookup ls j).isSome) :
    (lsLookup (procCands f id n cands ls).1 j).isSome := by
  rcases procCands_frame f id n cands ls j with h0 | h0
  · rw [h0]; exact h
  · rw [h0.2.1]; rfl

theorem checkDue_keeps (db : ZoneDb) (stz : Option String) (lo : Int)
    (f : String → Key → Bool) (u : Int) (scheds : List Schedule) (ls : LastSent)
    (j : String) (h : (lsLookup ls j).isSome) :
    (lsLookup (checkDueSchedules db stz lo f u scheds ls).1 j).isSome := by
  induction scheds generalizing ls with
  | nil => exact h
  | cons s rest ih =>
      have h1 : (lsLookup (processSchedule db stz lo f u ls s).1 j).isSome := by
        rcases processSchedule_frame db stz lo f u ls s j with h0 | h0
        · rw [h0]; exact h
        · rcases h0 with ⟨k, _, _, hk⟩
          rw [hk]; rfl
      simpa [checkDueSchedules] using ih _ h1

/-! Claim theorems. -/

/-- C1 (counterexample): the code's due test compares only the wall-clock
`HH:mm` strings, not the full minute-truncated instants.  For the
twice-daily 22:00 UTC schedule `sTw` at tick 2024-01-02T10:00Z (minute
2040), no candidate's minute-truncated instant equals `now` — the only
`HH:mm` match is the `+12h` candidate lying on 2024-01-03 — yet the tick
dispatches a send.  Under the claim ("due iff the full minute-truncated
instant, including the calendar date, equals now") this tick would dispatch
nothing. -/
theorem c1_wallclock_cex :
    (processSchedule db0 none 0 okAll 2040 [] sTw).2 = [("s2", (2040, 0))] ∧
    ∀ dt ∈ tickCandidates db0 none 0 2040 sTw, ∀ d : ZDT, dt = some d → d.utc ≠ 2040 := by
  decide

/-- C1 (amended): a candidate is due iff its wall-clock hour and minute in
the schedule's zone (its local minute-of-day) equal `now`'s, with the
calendar date ignored; for a valid candidate lying on the same local
calendar day as `now` (same zone, same day start) this coincides with exact
equality of the minute-truncated instants. -/
theorem c1_due_is_wallclock_only (n : ZDT) (dt : LDT) :
    (formatEq dt (some n) = true ↔
      ∃ d : ZDT, dt = some d ∧ localOf d % 1440 = localOf n % 1440) ∧
    ∀ d : ZDT, dt = some d → d.off = n.off → dayStartLocal d = dayStartLocal n →
      (formatEq dt (some n) = true ↔ d = n) := by
  constructor
  · cases dt with
    | none => simp [formatEq, formatHM]
    | some d => simp [formatEq, formatHM]
  · intro d hdt hoff hds
    subst hdt
    have h1 : formatEq (some d) (some n) = true ↔ localOf d % 1440 = localOf n % 1440 := by
      simp [formatEq, formatHM]
    rw [h1]
    constructor
    · intro h
      have e1 : localOf d = dayStartLocal d + localOf d % 1440 := by
        unfold dayStartLocal; omega
      have e2 : localOf n = dayStartLocal n + localOf n % 1440 := by
        unfold dayStartLocal; omega
      have hloc : localOf d = localOf n := by rw [e1, e2, hds, h]
      have hutc : d.utc = n.utc := by
        unfold localOf at hloc; omega
      cases d; cases n
      simp only [ZDT.mk.injEq]
      simp only at hutc hoff
      exact ⟨hutc, hoff⟩
    · intro h
      rw [h]

theorem c1_due_is_wallclock_only_witness :
    (formatEq (some ⟨3480, 0⟩) (some ⟨2040, 0⟩) = true ↔
      ∃ d : ZDT, (some ⟨3480, 0⟩ : LDT) = some d ∧
        localOf d % 1440 = localOf ⟨2040, 0⟩ % 1440) ∧
    (formatEq (some ⟨2040, 0⟩) (some ⟨2040, 0⟩) = true ↔ (⟨2040, 0⟩ : ZDT) = ⟨2040, 0⟩) :=
  ⟨(c1_due_is_wallclock_only ⟨2040, 0⟩ (some ⟨3480, 0⟩)).1,
   (c1_due_is_wallclock_only ⟨2040, 0⟩ (some ⟨2040, 0⟩)).2 ⟨2040, 0⟩ rfl rfl rfl⟩

/-- C2 (confirmed): for a schedule evaluated at `now = n` in its own zone
(`n.off` is the zone's offset `o` under `db tz = some o`) whose time parses
to hour `h` and minute `m` in range, the candidates are: exactly one at
`schedule.time` for onceDaily; that one plus `+12h` for twiceDaily; the one
plus `+8h` and `+16h` for every8h; for everyOtherDay exactly the base
candidate when the whole-calendar-day count since `startDate` is ≥ 0 and
even, else none; for weekly the same gated on divisibility by 7; and any
unrecognized frequency behaves as onceDaily. -/
theorem c2_frequency_candidates (db : ZoneDb) (tz : String) (s : Schedule)
    (n : ZDT) (o : Int) (h m : Nat)
    (hdb : db tz = some o) (hoff : n.off = o)
    (hpt : parseHM (if s.time = "" then "00:00" else s.time) = (some h, some m))
    (hh : h ≤ 23) (hm : m ≤ 59) :
    (s.frequency = "onceDaily" → candidatesOf db tz s n = [some (atTime n h m)]) ∧
    (s.frequency = "twiceDaily" →
      candidatesOf db tz s n = [some (atTime n h m), plusMin (some (atTime n h m)) 720]) ∧
    (s.frequency = "every8h" →
      candidatesOf db tz s n = [some (atTime n h m), plusMin (some (atTime n h m)) 480,
        plusMin (some (atTime n h m)) 960]) ∧
    (s.frequency = "everyOtherDay" →
      candidatesOf db tz s n =
        if 0 ≤ dayCountFrom n s.startDate ∧ dayCountFrom n s.startDate % 2 = 0
        then [some (atTime n h m)] else []) ∧
    (s.frequency = "weekly" →
      candidatesOf db tz s n =
        if 0 ≤ dayCountFrom n s.startDate ∧ dayCountFrom n s.startDate % 7 = 0
        then [some (atTime n h m)] else []) ∧
    (s.frequency ≠ "onceDaily" → s.frequency ≠ "twiceDaily" → s.frequency ≠ "every8h" →
      s.frequency ≠ "everyOtherDay" → s.frequency ≠ "weekly" →
      candidatesOf db tz s n = [some (atTime n h m)]) := by
  have hbase : setHM n (some h) (some m) = some (atTime n h m) := by
    simp [setHM, hh, hm, atTime]
  have harg : ((startOfDay n).utc - (s.startDate * 1440 - o)) / 1440
      = dayCountFrom n s.startDate := by
    simp only [startOfDay, dayStartLocal, dayCountFrom]
    rw [← hoff]
    omega
  have hgd : ∀ k : Int, gatedDay db tz s n (some (atTime n h m)) k
      = if 0 ≤ dayCountFrom n s.startDate ∧ dayCountFrom n s.startDate % k = 0
        then [some (atTime n h m)] else [] := by
    intro k
    simp [gatedDay, hdb, harg]
  refine ⟨?_, ?_, ?_, ?_, ?_, ?_⟩
  · intro hf
    simp [candidatesOf, hf, hpt, hbase]
  · intro hf
    simp [candidatesOf, hf, hpt, hbase]
  · intro hf
    simp [candidatesOf, hf, hpt, hbase]
  · intro hf
    simp [candidatesOf, hf, hpt, hbase, hgd]
  · intro hf
    simp [candidatesOf, hf, hpt, hbase, hgd]
  · intro h1 h2 h3 h4 h5
    simp [candidatesOf, h1, h2, h3, h4, h5, hpt, hbase]

theorem c2_frequency_candidates_witness :
    candidatesOf db0 "UTC" sE ⟨2 * 1440 + 540, 0⟩ = [some (atTime ⟨2 * 1440 + 540, 0⟩ 9 0)] ∧
    candidatesOf db0 "UTC" sE ⟨1 * 1440 + 540, 0⟩ = [] := by
  constructor
  · have h := (c2_frequency_candidates db0 "UTC" sE ⟨2 * 1440 + 540, 0⟩ 0 9 0
      (by decide) rfl (by decide) (by decide) (by decide)).2.2.2.1 rfl
    rw [h]
    decide
  · have h := (c2_frequency_candidates db0 "UTC" sE ⟨1 * 1440 + 540, 0⟩ 0 9 0
      (by decide) rfl (by decide) (by decide) (by decide)).2.2.2.1 rfl
    rw [h]
    decide

/-- C3 (confirmed): with every send succeeding, a tick over a schedule that
is due in the current minute dispatches exactly one send; a second tick run
against the resulting dedup map — which is the map persisted to
`lastSent.json` on the successful send and reloaded at startup, so this
covers both a second tick in the same minute and a restart mid-minute —
dispatches zero additional sends. -/
theorem c3_idempotent_and_restart_safe (db : ZoneDb) (stz : Option String)
    (lo : Int) (u : Int) (ls : LastSent) (s : Schedule)
    (hdue : scheduleDue db stz lo u ls s = true) :
    (checkDueSchedules db stz lo okAll u [s] ls).2.length = 1 ∧
    (checkDueSchedules db stz lo okAll u [s]
        (checkDueSchedules db stz lo okAll u [s] ls).1).2 = [] := by
  simp only [scheduleDue] at hdue
  rcases hz : setZoneNow db (tzOf stz s) u with _ | n
  · rw [hz] at hdue
    simp at hdue
  · rw [hz] at hdue
    simp only [Bool.and_eq_true, Bool.not_eq_true'] at hdue
    obtain ⟨⟨hw, hd⟩, hns⟩ := hdue
    have hne : lsLookup ls s.id ≠ some (minuteKey n) := by
      intro hc
      rw [hc] at hns
      simp at hns
    have hps : processSchedule db stz lo okAll u ls s
        = procCands okAll s.id n (candidatesOf db (tzOf stz s) s n) ls := by
      simp [processSchedule, hz, hw]
    rw [procCands_due_ok okAll s.id n _ ls rfl hne hd] at hps
    have hset : lsLookup (lsSet ls s.id (minuteKey n)) s.id = some (minuteKey n) := by
      rw [lsLookup_lsSet]
      simp
    have hps2 : processSchedule db stz lo okAll u (lsSet ls s.id (minuteKey n)) s
        = procCands okAll s.id n (candidatesOf db (tzOf stz s) s n)
            (lsSet ls s.id (minuteKey n)) := by
      simp [processSchedule, hz, hw]
    rw [procCands_dedup okAll s.id n _ _ hset] at hps2
    constructor
    · simp [checkDueSchedules, hps]
    · simp [checkDueSchedules, hps, hps2]

theorem c3_idempotent_and_restart_safe_witness :
    scheduleDue db0 none 0 540 [] sOnce = true ∧
    (checkDueSchedules db0 none 0 okAll 540 [sOnce] []).2.length = 1 ∧
    (checkDueSchedules db0 none 0 okAll 540 [sOnce]
        (checkDueSchedules db0 none 0 okAll 540 [sOnce] []).1).2 = [] :=
  ⟨by decide, c3_idempotent_and_restart_safe db0 none 0 540 [] sOnce (by decide)⟩

theorem isWithinDuration_nonpos (db : ZoneDb) (lo : Int) (s : Schedule) (now : LDT)
    (hdur : s.duration ≤ 0) : isWithinDuration db lo s now = false := by
  rcases now with _ | n
  · rfl
  · unfold isWithinDuration
    cases hzr : (match s.timezone with | some z => db z | none => some lo) with
    | none => rfl
    | some o =>
        simp only [decide_eq_false_iff_not]
        omega

/-- C4 (counterexample): on 2024-01-01 at 06:00Z — inside the one-day
active window of the every8h 22:00 UTC schedule `s4` — the tick produces
the `+8h` candidate 2024-01-02T06:00Z (minute 1800), which lies outside
the active window by the code's own `isWithinDuration` test, and the tick
even dispatches a send for it, because its wall-clock `HH:mm` matches
`now`.  The claim states such a candidate is never produced. -/
theorem c4_window_cex :
    some (⟨1800, 0⟩ : ZDT) ∈ tickCandidates db0 none 0 360 s4 ∧
    isWithinDuration db0 0 s4 (some ⟨1800, 0⟩) = false ∧
    (processSchedule db0 none 0 okAll 360 [] s4).2 = [("s4", (360, 0))] := by
  decide

/-- C4 (amended): the duration window gates the *tick*, not each candidate:
a tick whose current minute is outside the schedule's active window
produces no candidates at all; hence a schedule with duration ≤ 0 produces
none on any tick, and the duration=7, startDate=2024-01-01 schedule
produces none during day 7 (2024-01-08).  (The counterexample shows the
stronger original claim — that every produced candidate itself lies in the
window — fails for cross-midnight offset candidates.) -/
theorem c4_window_gate (db : ZoneDb) (stz : Option String) (lo u : Int) (s : Schedule) :
    (∀ n : ZDT, setZoneNow db (tzOf stz s) u = some n →
      isWithinDuration db lo s (some n) = false →
      tickCandidates db stz lo u s = [] ∧
      ∀ (f : String → Key → Bool) (ls : LastSent),
        processSchedule db stz lo f u ls s = (ls, [])) ∧
    (s.duration ≤ 0 → tickCandidates db stz lo u s = []) ∧
    (s.duration = 7 → s.startDate = 0 → s.timezone = some "UTC" → db "UTC" = some 0 →
      7 * 1440 ≤ u → u < 8 * 1440 → tickCandidates db stz lo u s = []) := by
  refine ⟨?_, ?_, ?_⟩
  · intro n hz hw
    constructor
    · simp [tickCandidates, hz, hw]
    · intro f ls
      simp [processSchedule, hz, hw]
  · intro hdur
    rcases hz : setZoneNow db (tzOf stz s) u with _ | n
    · simp [tickCandidates, hz]
    · simp [tickCandidates, hz, isWithinDuration_nonpos db lo s (some n) hdur]
  · intro hd7 hsd htz hdb hu1 hu2
    have htzOf : tzOf stz s = "UTC" := by simp [tzOf, htz]
    have hz : setZoneNow db (tzOf stz s) u = some ⟨u, 0⟩ := by
      simp [setZoneNow, htzOf, hdb]
    have hw : isWithinDuration db lo s (some ⟨u, 0⟩) = false := by
      unfold isWithinDuration
      simp only [htz, hdb, decide_eq_false_iff_not]
      omega
    simp [tickCandidates, hz, hw]

theorem c4_window_gate_witness :
    tickCandidates db0 none 0 540 { sOnce with duration := 0 } = [] ∧
    tickCandidates db0 none 0 (7 * 1440 + 540) sOnce = [] :=
  ⟨(c4_window_gate db0 none 0 540 { sOnce with duration := 0 }).2.1 (by decide),
   (c4_window_gate db0 none 0 (7 * 1440 + 540) sOnce).2.2 rfl rfl rfl (by decide)
     (by decide) (by decide)⟩

theorem parseHM_0900 : parseHM "09:00" = (some 9, some 0) := by decide

theorem processSchedule_server_free (db : ZoneDb) (z : String) (s : Schedule)
    (hz : s.timezone = some z) (f : String → Key → Bool) (u : Int) (ls : LastSent)
    (stz1 stz2 : Option String) (lo1 lo2 : Int) :
    processSchedule db stz1 lo1 f u ls s = processSchedule db stz2 lo2 f u ls s := by
  have htz1 : tzOf stz1 s = z := by simp [tzOf, hz]
  have htz2 : tzOf stz2 s = z := by simp [tzOf, hz]
  have hwd : ∀ now, isWithinDuration db lo1 s now = isWithinDuration db lo2 s now := by
    intro now
    unfold isWithinDuration
    rw [hz]
  simp only [processSchedule]
  rw [htz1, htz2]
  cases hsz : setZoneNow db z u with
  | none => simp
  | some n => simp [hwd]

theorem sIN_attempts (t : Int) (ht1 : 0 ≤ t) (ht2 : t ≤ 1440 * 99999) :
    (processSchedule db0 none 0 okAll t [] sIN).2 ≠ [] ↔ t % 1440 = 210 := by
  have hzn : setZoneNow db0 (tzOf none sIN) t = some ⟨t, 330⟩ := by
    simp [setZoneNow, tzOf, sIN, db0]
  have hw : isWithinDuration db0 0 sIN (some ⟨t, 330⟩) = true := by
    simp [isWithinDuration, sIN, db0]
    omega
  have hps : processSchedule db0 none 0 okAll t [] sIN
      = procCands okAll sIN.id ⟨t, 330⟩
          (candidatesOf db0 (tzOf none sIN) sIN ⟨t, 330⟩) [] := by
    simp only [processSchedule]
    rw [hzn]
    simp [hw]
  have hcand : candidatesOf db0 (tzOf none sIN) sIN ⟨t, 330⟩
      = [some ⟨dayStartLocal ⟨t, 330⟩ + 210, 330⟩] := by
    simp [candidatesOf, sIN, tzOf, parseHM_0900, setHM]
    omega
  rw [hps, hcand]
  by_cases hc : (t + 330) % 1440 = 540
  · have hfe : formatEq (some ⟨dayStartLocal ⟨t, 330⟩ + 210, 330⟩) (some ⟨t, 330⟩) = true := by
      simp [formatEq, formatHM, localOf, dayStartLocal]
      omega
    simp [procCands, hfe, lsLookup, minuteKey, okAll]
    omega
  · have hfe : formatEq (some ⟨dayStartLocal ⟨t, 330⟩ + 210, 330⟩) (some ⟨t, 330⟩) = false := by
      simp [formatEq, formatHM, localOf, dayStartLocal]
      omega
    simp [procCands, hfe]
    omega

/-- C5 (confirmed): the dispatch decisions of a tick depend only on the
schedule's own timezone field, never on the server's configured zone: for a
schedule carrying a timezone, the per-schedule tick result is identical
under any two settings of the server's default-zone environment variable
and of the process-local zone; concretely, the +05:30 schedule `sIN` with
time "09:00" attempts a dispatch exactly at the ticks whose UTC
minute-of-day is 210 (i.e. 03:30 UTC), under any server zone setting. -/
theorem c5_fires_by_schedule_zone_only (db : ZoneDb) (z : String) (s : Schedule)
    (hz : s.timezone = some z) (f : String → Key → Bool) (u : Int) (ls : LastSent)
    (stz1 stz2 : Option String) (lo1 lo2 : Int) :
    processSchedule db stz1 lo1 f u ls s = processSchedule db stz2 lo2 f u ls s ∧
    ∀ t : Int, 0 ≤ t → t ≤ 1440 * 99999 →
      ((processSchedule db0 stz1 lo1 okAll t [] sIN).2 ≠ [] ↔ t % 1440 = 210) := by
  constructor
  · exact processSchedule_server_free db z s hz f u ls stz1 stz2 lo1 lo2
  · intro t ht1 ht2
    rw [processSchedule_server_free db0 "Asia/Kolkata" sIN rfl okAll t [] stz1 none lo1 0]
    exact sIN_attempts t ht1 ht2

theorem c5_fires_by_schedule_zone_only_witness :
    processSchedule db0 (some "Gondor") 777 okAll 210 [] sIN
      = processSchedule db0 none 0 okAll 210 [] sIN ∧
    (processSchedule db0 (some "Gondor") 777 okAll 210 [] sIN).2 ≠ [] := by
  have h := c5_fires_by_schedule_zone_only db0 "Asia/Kolkata" sIN rfl okAll 210 []
      (some "Gondor") none 777 0
  exact ⟨h.1, (h.2 210 (by decide) (by decide)).mpr (by decide)⟩

/-- C6 (counterexample): an unrecognized timezone does not fall back to the
configured default zone.  `sBadZone` (time 09:00, zone "Mars/Olympus",
absent from the zone database) at tick minute 540 with default zone UTC
produces no dispatch at all, while the same schedule with its timezone
field *absent* does fall back to the default zone and dispatches.  Under
the claim, the unknown-zone schedule would still be evaluated in the
default zone and hence dispatch here. -/
theorem c6_unknown_zone_cex :
    (processSchedule db0 (some "UTC") 0 okAll 540 [] sBadZone).2 = [] ∧
    (processSchedule db0 (some "UTC") 0 okAll 540 []
        { sBadZone with timezone := none }).2 = [("s1", (540, 0))] := by
  decide

/-- C6 (amended): when a schedule's timezone identifier is present but not
recognized, luxon yields an invalid DateTime, no error is raised, and the
schedule is silently skipped for that tick — no dispatch, dedup map
untouched — while the remaining schedules are still processed; the
fallback to the configured default zone happens only when the timezone
field is absent (the `||` default), and nothing crashes. -/
theorem c6_unknown_zone_skips (db : ZoneDb) (stz : Option String) (lo u : Int)
    (f : String → Key → Bool) (ls : LastSent) (z : String) (s : Schedule)
    (rest : List Schedule)
    (hz : s.timezone = some z) (hu : db z = none) :
    processSchedule db stz lo f u ls s = (ls, []) ∧
    checkDueSchedules db stz lo f u (s :: rest) ls
      = checkDueSchedules db stz lo f u rest ls := by
  have htz : tzOf stz s = z := by simp [tzOf, hz]
  have hzn : setZoneNow db (tzOf stz s) u = none := by
    simp [setZoneNow, htz, hu]
  have hproc : processSchedule db stz lo f u ls s = (ls, []) := by
    simp [processSchedule, hzn]
  exact ⟨hproc, by simp [checkDueSchedules, hproc]⟩

theorem c6_unknown_zone_skips_witness :
    processSchedule db0 (some "UTC") 0 okAll 540 [] sBadZone = ([], []) ∧
    checkDueSchedules db0 (some "UTC") 0 okAll 540 [sBadZone, sOnce] []
      = checkDueSchedules db0 (some "UTC") 0 okAll 540 [sOnce] [] :=
  c6_unknown_zone_skips db0 (some "UTC") 0 540 okAll [] "Mars/Olympus" sBadZone
    [sOnce] rfl (by decide)

theorem setHM_none_of_badParse (t : String) (n : ZDT)
    (ht : timeParseOk t = false) :
    setHM n (parseHM t).1 (parseHM t).2 = none := by
  unfold timeParseOk at ht
  rcases hp : parseHM t with ⟨h?, m?⟩
  rw [hp] at ht
  rcases h? with _ | h
  · rfl
  · rcases m? with _ | m
    · rfl
    · simp only [decide_eq_false_iff_not] at ht
      simp [setHM, ht]

theorem candidates_all_none (db : ZoneDb) (tz : String) (s : Schedule) (n : ZDT)
    (hb : setHM n (parseHM (if s.time = "" then "00:00" else s.time)).1
            (parseHM (if s.time = "" then "00:00" else s.time)).2 = none) :
    ∀ dt ∈ candidatesOf db tz s n, dt = none := by
  intro dt hdt
  simp only [candidatesOf] at hdt
  rw [hb] at hdt
  have hgat : ∀ k : Int, dt ∈ gatedDay db tz s n none k → dt = none := by
    intro k hm
    unfold gatedDay at hm
    cases hdb : db tz with
    | none => rw [hdb] at hm; simp at hm
    | some o =>
        rw [hdb] at hm
        split at hm <;> simp_all
  by_cases h1 : s.frequency = "onceDaily"
  · simp [h1] at hdt; exact hdt
  by_cases h2 : s.frequency = "twiceDaily"
  · simp [h1, h2, plusMin] at hdt
    tauto
  by_cases h3 : s.frequency = "every8h"
  · simp [h1, h2, h3, plusMin] at hdt
    tauto
  by_cases h4 : s.frequency = "everyOtherDay"
  · simp only [h1, h2, h3, h4, if_false, if_true] at hdt
    exact hgat 2 hdt
  by_cases h5 : s.frequency = "weekly"
  · simp only [h1, h2, h3, h4, h5, if_false, if_true] at hdt
    exact hgat 7 hdt
  · simp [h1, h2, h3, h4, h5] at hdt
    exact hdt

/-- C7 (counterexample): an unparseable time raises no error of any kind.
With time "25:00" (hour out of range), `now.set` yields an invalid
DateTime whose `HH:mm` never matches, so the schedule is skipped exactly
as a not-due schedule would be — the tick's output for it is the untouched
state, with no error value anywhere in the code or its output — while the
other schedule in the same tick still dispatches.  The claim that time
resolution "fails with an InvalidTimeFormat error (rather than producing
an instant or failing silently)" is false of the code, which has no such
error path and fails silently. -/
theorem c7_badtime_cex :
    processSchedule db0 none 0 okAll 540 [] sBadTime = ([], []) ∧
    (checkDueSchedules db0 none 0 okAll 540 [sBadTime, sOnce] []).2
      = [("s1", (540, 0))] := by
  decide

/-- C7 (amended): when a schedule's time field does not parse to an hour in
[0,23] and a minute in [0,59], every candidate built from it is an invalid
DateTime, so the schedule is silently skipped for the tick — no dispatch,
no dedup write, no error — while all other schedules are still processed
(the fail-soft half of the claim holds; the InvalidTimeFormat error does
not exist). -/
theorem c7_badtime_skips (db : ZoneDb) (stz : Option String) (lo u : Int)
    (f : String → Key → Bool) (ls : LastSent) (s : Schedule) (rest : List Schedule)
    (ht : timeParseOk (if s.time = "" then "00:00" else s.time) = false) :
    processSchedule db stz lo f u ls s = (ls, []) ∧
    checkDueSchedules db stz lo f u (s :: rest) ls
      = checkDueSchedules db stz lo f u rest ls := by
  have hproc : processSchedule db stz lo f u ls s = (ls, []) := by
    cases hz : setZoneNow db (tzOf stz s) u with
    | none => simp [processSchedule, hz]
    | some n =>
        by_cases hw : isWithinDuration db lo s (some n)
        · have hall := candidates_all_none db (tzOf stz s) s n
            (setHM_none_of_badParse _ n ht)
          have hnd := hasDue_of_all_none n _ hall
          simp [processSchedule, hz, hw, procCands_noDue f s.id n _ ls hnd]
        · simp [processSchedule, hz, hw]
  exact ⟨hproc, by simp [checkDueSchedules, hproc]⟩

theorem c7_badtime_skips_witness :
    timeParseOk (if sBadTime.time = "" then "00:00" else sBadTime.time) = false ∧
    processSchedule db0 none 0 okAll 540 [] sBadTime = ([], []) ∧
    checkDueSchedules db0 none 0 okAll 540 [sBadTime, sOnce] []
      = checkDueSchedules db0 none 0 okAll 540 [sOnce] [] := by
  have h := c7_badtime_skips db0 none 0 540 okAll [] sBadTime [sOnce] (by decide)
  exact ⟨by decide, h.1, h.2⟩

/-- C8 (confirmed): when the transporter fails, the dedup map is unchanged
— the occurrence key is not committed — so re-running the tick while the
minute key still matches reproduces the identical attempts (the retry); and
in general a schedule's dedup entry changes only when a send was attempted
this tick and succeeded, i.e. the key is committed only after a successful
send. -/
theorem c8_failure_no_commit (db : ZoneDb) (stz : Option String) (lo u : Int)
    (ls : LastSent) (s : Schedule) :
    (processSchedule db stz lo okNone u ls s).1 = ls ∧
    processSchedule db stz lo okNone u (processSchedule db stz lo okNone u ls s).1 s
      = processSchedule db stz lo okNone u ls s ∧
    ∀ (f : String → Key → Bool) (j : String),
      lsLookup (processSchedule db stz lo f u ls s).1 j ≠ lsLookup ls j →
      ∃ k, (j, k) ∈ (processSchedule db stz lo f u ls s).2 ∧ f j k = true ∧
           lsLookup (processSchedule db stz lo f u ls s).1 j = some k := by
  have h1 : (processSchedule db stz lo okNone u ls s).1 = ls := by
    cases hz : setZoneNow db (tzOf stz s) u with
    | none => simp [processSchedule, hz]
    | some n =>
        by_cases hw : isWithinDuration db lo s (some n)
        · simp [processSchedule, hz, hw, procCands_fail]
        · simp [processSchedule, hz, hw]
  refine ⟨h1, ?_, ?_⟩
  · rw [h1]
  · intro f j hne
    rcases processSchedule_frame db stz lo f u ls s j with h | h
    · exact absurd h hne
    · exact h

theorem c8_failure_no_commit_witness :
    (processSchedule db0 none 0 okNone 540 [] sOnce).1 = [] ∧
    ∃ k, ("s1", k) ∈ (processSchedule db0 none 0 okAll 540 [] sOnce).2 ∧
      okAll "s1" k = true ∧
      lsLookup (processSchedule db0 none 0 okAll 540 [] sOnce).1 "s1" = some k := by
  have h := c8_failure_no_commit db0 none 0 540 [] sOnce
  exact ⟨h.1, h.2.2 okAll "s1" (by decide)⟩

/-- C9 (counterexample): deleting a schedule does not delete its
DedupRecord.  From a state whose dedup map holds an entry for schedule
"s1", the DELETE handler removes the schedule from the registry but leaves
the "s1" entry in the last-sent map, contradicting the claim that the
record is removed with its schedule. -/
theorem c9_delete_keeps_record_cex :
    (deleteSchedule "s1" ⟨[sOnce], [("s1", (540, 0))]⟩).schedules = [] ∧
    lsLookup (deleteSchedule "s1" ⟨[sOnce], [("s1", (540, 0))]⟩).lastSent "s1"
      = some (540, 0) := by
  decide

/-- C9 (amended): a DedupRecord is never deleted by *any* operation,
including deletion of its schedule, which leaves the record orphaned: the
DELETE and POST handlers do not touch the dedup map at all, and a tick
never removes an entry (it only creates or overwrites entries on successful
sends). -/
theorem c9_dedup_never_deleted (idd : String) (s' : Schedule) (st : ServerState)
    (db : ZoneDb) (stz : Option String) (lo u : Int) (f : String → Key → Bool) :
    (deleteSchedule idd st).lastSent = st.lastSent ∧
    (addSchedule s' st).lastSent = st.lastSent ∧
    ∀ j, (lsLookup st.lastSent j).isSome →
      (lsLookup (tickState db stz lo f u st).1.lastSent j).isSome := by
  refine ⟨rfl, rfl, ?_⟩
  intro j hj
  simp only [tickState]
  exact checkDue_keeps db stz lo f u st.schedules st.lastSent j hj

theorem c9_dedup_never_deleted_witness :
    (deleteSchedule "s1" ⟨[sOnce], [("s1", (540, 0))]⟩).lastSent = [("s1", (540, 0))] ∧
    (lsLookup (tickState db0 none 0 okAll 2000
        ⟨[sOnce], [("s1", (540, 0))]⟩).1.lastSent "s1").isSome := by
  have h := c9_dedup_never_deleted "s1" sOnce ⟨[sOnce], [("s1", (540, 0))]⟩
      db0 none 0 2000 okAll
  exact ⟨h.1, h.2.2 "s1" (by decide)⟩

/-- C10 (confirmed): a tick never mutates the schedule registry — the state
after `checkDueSchedules` carries the identical schedule list, every field
of every schedule included — and the only state the tick writes is the
per-schedule last-sent dedup map, whose entries change only at ids for
which a send was dispatched this tick and reported success by the
transporter. -/
theorem c10_tick_frame (db : ZoneDb) (stz : Option String) (lo u : Int)
    (f : String → Key → Bool) (st : ServerState) :
    (tickState db stz lo f u st).1.schedules = st.schedules ∧
    ∀ j, lsLookup (tickState db stz lo f u st).1.lastSent j = lsLookup st.lastSent j ∨
      ∃ k, (j, k) ∈ (tickState db stz lo f u st).2 ∧ f j k = true := by
  refine ⟨rfl, ?_⟩
  intro j
  simp only [tickState]
  exact checkDue_frame db stz lo f u st.schedules st.lastSent j
